import Mathlib

/-!
Shallow embedding of `dbcview.py` (repository driftregion/dbcview).

The source is a single Python file.  Pure helpers become Lean functions on a
plain data model (`Node`, `Message`, `Signal`, `Database`).  The one piece of
mutable state — `get_edges` sorts `db.messages` in place via
`sort_messages_by_CAN_id` — is modelled by explicit state passing: `get_edges`
returns the edge list together with the updated database.  Python floats are
modelled by exact rationals `ℚ`; Python `int()` truncation toward zero is
`pyTrunc`.  Python exceptions (`min([])` raising `ValueError`) are modelled
with `Except`/`Option`.  The `while` loop of `sort_messages_by_CAN_id` is
transcribed as a fuel-indexed step function `sortLoopFuel`; the fuel bound
`sortFuel` is proved sufficient below (`sortLoopFuel_isSome`), so the
`.getD msgs` fallback in `sort_messages_by_CAN_id` is provably dead code.
-/

namespace DBCView

/-- A network node; `cantools` node objects are consumed only through `.name`. -/
structure Node where
  name : String
deriving DecidableEq, Inhabited

/-- A signal carries the list of receiver node names (`sig.receivers`). -/
structure Signal where
  receivers : List String
deriving DecidableEq, Inhabited

/-- A CAN message: numeric identifier, name, sender names, signals. -/
structure Message where
  frame_id : Nat
  name : String
  senders : List String
  signals : List Signal
deriving DecidableEq, Inhabited

/-- The loaded database: node list and message list (`db.nodes`, `db.messages`). -/
structure Database where
  nodes : List Node
  messages : List Message
deriving DecidableEq, Inhabited

/-- An edge as built by `get_edges`: `(sender, receiver, msg)`. -/
abbrev Edge := String × String × Message

/-! ### sort_messages_by_CAN_id (lines 13-22)

```
def sort_messages_by_CAN_id(msgs: list):
    i = 0
    while (i < len(msgs) - 2):
        if msgs[i].frame_id > msgs[i + 1].frame_id:
            tmp = msgs[i]
            msgs[i] = msgs[i+1]
            msgs[i+1] = tmp
            i = 0
        i += 1
    return msgs
```

Note that after a swap the index is set to 0 and then unconditionally
incremented, so the scan resumes at index 1, not 0.  The loop guard
`i < len(msgs) - 2` over Python ints is `i + 2 < msgs.length` over `Nat`.
-/

/-- Swap the adjacent elements at positions `i` and `i+1`
(`tmp = msgs[i]; msgs[i] = msgs[i+1]; msgs[i+1] = tmp`). -/
def swapAdj (l : List Message) (i : Nat) : List Message :=
  (l.set i (l.getD (i+1) default)).set (i+1) (l.getD i default)

/-- One fuel-indexed transcription of the `while` loop: state is `(msgs, i)`;
`none` means the fuel ran out (proved unreachable for `sortFuel` below). -/
def sortLoopFuel : Nat → List Message → Nat → Option (List Message)
  | 0, _, _ => none
  | fuel+1, msgs, i =>
    if i + 2 < msgs.length then
      if (msgs.getD i default).frame_id > (msgs.getD (i+1) default).frame_id then
        sortLoopFuel fuel (swapAdj msgs i) 1
      else
        sortLoopFuel fuel msgs (i+1)
    else some msgs

/-- Number of inverted pairs of `frame_id`s; the loop's termination measure. -/
def inversions : List Message → Nat
  | [] => 0
  | m :: l => l.countP (fun x => decide (x.frame_id < m.frame_id)) + inversions l

/-- Fuel that is provably enough for the loop to finish from `i = 0`. -/
def sortFuel (msgs : List Message) : Nat :=
  inversions msgs * msgs.length + msgs.length

/-- The sort itself.  `sortLoopFuel_isSome` below proves the fallback
`.getD msgs` is never taken. -/
def sort_messages_by_CAN_id (msgs : List Message) : List Message :=
  (sortLoopFuel (sortFuel msgs + 1) msgs 0).getD msgs

/-! ### messages_from_a_to_b (lines 24-34)

```
matching_messages = []
msgs_to_search = [msg for msg in messages if any([sender in msg.senders for sender in senders])]
for msg in msgs_to_search:
    for receiver in receivers:
        if any([receiver in sig.receivers for sig in msg.signals]):
            matching_messages.append(msg)
return matching_messages
```
-/

/-- Test `any([sender in msg.senders for sender in senders])`. -/
def sender_match (msg : Message) (senders : List String) : Bool :=
  senders.any (fun sender => msg.senders.contains sender)

/-- Test `any([receiver in sig.receivers for sig in msg.signals])`. -/
def receiver_match (msg : Message) (receiver : String) : Bool :=
  msg.signals.any (fun sig => sig.receivers.contains receiver)

/-- Return all messages sent from any ecu_a to any ecu_b.  A message is
appended once per name in `receivers` matching one of its signals. -/
def messages_from_a_to_b (messages : List Message)
    (senders receivers : List String) : List Message :=
  let msgs_to_search := messages.filter (fun msg => sender_match msg senders)
  msgs_to_search.flatMap
    (fun msg => (receivers.filter (fun receiver => receiver_match msg receiver)).map
      (fun _ => msg))

/-! ### to_hex_str / color_str_for_msg (lines 36-51) -/

/-- Python `int()` on a rational: truncation toward zero. -/
def pyTrunc (q : ℚ) : ℤ := q.num.tdiv (q.den : ℤ)

/-- Lowercase hex digits of a natural number, no padding, as produced by
Python `hex(n)` after its `0x` prefix (`hex(0)` gives `0x0`, so one digit). -/
def pyHexDigits (n : Nat) : String := ⟨Nat.toDigits 16 n⟩

/-- Transcription of `hex(int(val * 255))[2:]`.  For `n ≥ 0` Python's
`hex(n)` is `0x` followed by the digits, so `[2:]` leaves just the digits;
for `n < 0` it is `-0x` followed by the digits, so `[2:]` leaves
`x` followed by the digits.

Caveat: Python evaluates `val * 255` on binary64 floats and this embedding
uses exact rationals.  When the exact product is representable in binary64
the two agree; otherwise the float rounding of the product can move it across
an integer and shift the truncated value by one (e.g. the exact value `212`
arises in Python as `212 - 2⁻⁴⁵`, which `int()` truncates to `211`).  The
statements about this function below are therefore restricted to inputs on
which every intermediate is representable. -/
def to_hex_str (val : ℚ) : String :=
  let n := pyTrunc (val * 255)
  if n < 0 then "x" ++ pyHexDigits n.natAbs else pyHexDigits n.natAbs

/-- Makes lines representing higher priority (lower CAN ID) red.
The source's defaults are `min_id=0, max_id=0x7FF`; callers in this file pass
both explicitly.  `fmt = "#{red}00{blue}"`.

Caveat: the source computes `norm`, `1 - norm` and the products in
`to_hex_str` on binary64 floats; the embedding uses exact rationals.  The two
pipelines coincide whenever every intermediate result is exactly
representable in binary64 — in particular whenever
`id_range = max_id − min_id` is a power of two `2^k`, `k ≤ 45`, and
`min_id ≤ frame_id ≤ max_id`: CPython's int/int true division is correctly
rounded, so `norm = d/2^k` with `0 ≤ d ≤ 2^k` is exact; `1 − norm =
(2^k − d)/2^k` is representable (numerator below `2^53`), so the subtraction
is exact; and `val * 255 = 255·c/2^k` with `255·c < 2^(k+8) ≤ 2^53` is
representable, so the product is exact.  For a non-power-of-two range the
channels can differ by one from the exact-rational value (`min_id = 0`,
`max_id = 255`, `frame_id = 43`: binary64 red channel `211`, exact `212`);
general statements below carry the power-of-two hypothesis. -/
def color_str_for_msg (msg : Message) (min_id max_id : ℤ) : String :=
  let id_range : ℤ := max_id - min_id
  let norm : ℚ :=
    if id_range ≠ 0 then ((msg.frame_id : ℚ) - (min_id : ℚ)) / (id_range : ℚ)
    else 1/2
  "#" ++ to_hex_str (1 - norm) ++ "00" ++ to_hex_str norm

/-! ### fmt_msg_name / get_node_names (lines 53-57) -/

/-- `f"{msg.name}\n{hex(msg.frame_id)} ({msg.frame_id})"`. -/
def fmt_msg_name (msg : Message) : String :=
  msg.name ++ "\n" ++ "0x" ++ pyHexDigits msg.frame_id
    ++ " (" ++ toString msg.frame_id ++ ")"

/-- `list(set([node.name for node in db.nodes]))`.  Python's set iteration
order is unspecified; the embedding deduplicates deterministically, which is
faithful up to ordering (all downstream uses are membership/emptiness tests
or display). -/
def get_node_names (db : Database) : List String :=
  (db.nodes.map Node.name).dedup

/-! ### get_edges (lines 59-71)

`sort_messages_by_CAN_id(db.messages)` sorts the database's message list in
place (the Python list object is mutated), so `get_edges` returns the updated
database alongside the edge list.
-/

/-- Compute the edge list and the post-call database state. -/
def get_edges (db : Database) (senders receivers : List String) :
    List Edge × Database :=
  let sorted_messages := sort_messages_by_CAN_id db.messages
  let edges := senders.flatMap (fun sender =>
    receivers.flatMap (fun receiver =>
      (messages_from_a_to_b sorted_messages [sender] [receiver]).map
        (fun msg => (sender, receiver, msg))))
  (edges, { db with messages := sorted_messages })

/-! ### dbcview (lines 73-92)

`min_id = min([msg.frame_id for _, _, msg in edges])` raises `ValueError`
when `edges` is empty; modelled as `Except.error`.  The rendering collaborator
(`graphviz`) is external: the embedding returns the per-edge records handed
to it. -/

/-- What the core hands to graphviz for one edge. -/
structure GraphEdge where
  tail_name : String
  head_name : String
  label : String
  color : String
deriving DecidableEq, Inhabited

/-- Display a graph of messages in a DBC (modulo the external renderer). -/
def dbcview (graph_name : String) (edges : List Edge) :
    Except String (String × List GraphEdge) :=
  match (edges.map (fun e => e.2.2.frame_id)).min?,
      (edges.map (fun e => e.2.2.frame_id)).max? with
  | some min_id, some max_id =>
    .ok (graph_name, edges.map (fun e =>
      { tail_name := e.1
        head_name := e.2.1
        label := fmt_msg_name e.2.2
        color := color_str_for_msg e.2.2 (min_id : ℤ) (max_id : ℤ) }))
  | _, _ => .error "min() arg is an empty sequence"

/-! ### main (lines 94-143) -/

/-- `pathlib.Path(filename).stem`: the final path component with its last
extension removed (CPython: `i = name.rfind('.'); name[:i] if 0 < i <
len(name) - 1 else name`). -/
def path_stem (p : String) : String :=
  let cs := p.toList
  let name := match cs.reverse.findIdx? (fun c => c = '/') with
    | some rj => cs.drop (cs.length - rj)
    | none => cs
  match name.reverse.findIdx? (fun c => c = '.') with
  | some rj =>
    let i := name.length - 1 - rj
    if 0 < i ∧ i < name.length - 1 then ⟨name.take i⟩ else ⟨name⟩
  | none => ⟨name⟩

/-- Resolution of the three filter modes (lines 120-128); `all_nodes` is the
catalog with the `ignore` names already removed (line 115).  Returns
`(all_senders, all_receievers)`.  `list(set(nodes + all_nodes))` is modelled
by `dedup`, faithful up to Python's unspecified set order. -/
def resolve_sets (all_nodes nodes senders receivers : List String) :
    List String × List String :=
  if nodes ≠ [] then
    let pool := (nodes ++ all_nodes).dedup
    (pool, pool)
  else if senders ≠ [] ∨ receivers ≠ [] then
    (if senders ≠ [] then senders else all_nodes,
     if receivers ≠ [] then receivers else all_nodes)
  else (all_nodes, all_nodes)

/-- Observable outcome of a `main` run.  `noEdgesWarned` records whether the
"No edges found" message was printed before the run ended. -/
inductive MainResult where
  | emptyCatalog : MainResult
  | unknownNames (bad valid : List String) : MainResult
  | raised (noEdgesWarned : Bool) (msg : String) : MainResult
  | rendered (noEdgesWarned : Bool) (graph_name : String)
      (edges : List GraphEdge) : MainResult
deriving DecidableEq, Inhabited

/-- Transcription of `main`.  Output-directory handling (line 141) is
external filesystem glue and is not modelled; it cannot raise before
`dbcview` is entered. -/
def main (db : Database) (dbc_filename : String)
    (nodes senders receivers ignore : List String) : MainResult :=
  let all_nodes := get_node_names db
  if all_nodes = [] then .emptyCatalog
  else
    let nonexistent_nodes :=
      (nodes ++ senders ++ receivers ++ ignore).filter
        (fun n => ! all_nodes.contains n)
    if nonexistent_nodes ≠ [] then
      .unknownNames nonexistent_nodes (get_node_names db)
    else
      let avail := all_nodes.filter (fun n => ! ignore.contains n)
      let sets := resolve_sets avail nodes senders receivers
      let er := get_edges db sets.1 sets.2
      let noEdges := decide (er.1 = [])
      let base := path_stem dbc_filename
      let graph_name :=
        if senders.all (receivers.contains ·) ∧ receivers.all (senders.contains ·)
        then base
        else
          let sender_expr :=
            if senders ≠ [] then "from " ++ String.intercalate " " senders else ""
          let receiver_expr :=
            if receivers ≠ [] then "to " ++ String.intercalate " " receivers else ""
          if sender_expr ≠ "" ∨ receiver_expr ≠ "" then
            base ++ " " ++ sender_expr ++ " " ++ receiver_expr
          else base
      match dbcview graph_name er.1 with
      | .error e => .raised noEdges e
      | .ok res => .rendered noEdges res.1 res.2

/-! ## Lemmas about the restart-scan sort -/

lemma length_swapAdj (l : List Message) (i : Nat) :
    (swapAdj l i).length = l.length := by
  simp [swapAdj]

lemma swapAdj_cons_cons (a b : Message) (t : List Message) :
    swapAdj (a :: b :: t) 0 = b :: a :: t := rfl

lemma swapAdj_cons_succ (a : Message) (t : List Message) (i : Nat) :
    swapAdj (a :: t) (i+1) = a :: swapAdj t i := rfl

lemma swapAdj_perm : ∀ (i : Nat) (l : List Message), i + 1 < l.length →
    (swapAdj l i).Perm l := by
  intro i
  induction i with
  | zero =>
    intro l hlen
    match l, hlen with
    | a :: b :: t, _ => exact List.Perm.swap a b t
  | succ i ih =>
    intro l hlen
    match l, hlen with
    | a :: t, hlen =>
      rw [swapAdj_cons_succ]
      exact List.Perm.cons a (ih t (by simpa using hlen))

lemma inversions_swapAdj : ∀ (i : Nat) (l : List Message), i + 1 < l.length →
    (l.getD (i+1) default).frame_id < (l.getD i default).frame_id →
    inversions (swapAdj l i) + 1 = inversions l := by
  intro i
  induction i with
  | zero =>
    intro l hlen hgt
    match l, hlen with
    | a :: b :: t, _ =>
      simp only [List.getD_cons_succ, List.getD_cons_zero] at hgt
      rw [swapAdj_cons_cons]
      have h1 : decide (b.frame_id < a.frame_id) = true := decide_eq_true hgt
      have h2 : decide (a.frame_id < b.frame_id) = false :=
        decide_eq_false (Nat.lt_asymm hgt)
      simp [inversions, List.countP_cons, h1, h2]
      omega
  | succ i ih =>
    intro l hlen hgt
    match l, hlen with
    | a :: t, hlen =>
      simp only [List.getD_cons_succ] at hgt
      have hlt : i + 1 < t.length := by simpa using hlen
      rw [swapAdj_cons_succ]
      simp only [inversions]
      rw [(swapAdj_perm i t hlt).countP_eq]
      have hih := ih t hlt hgt
      omega

lemma sortLoopFuel_isSome : ∀ (n : Nat) (msgs : List Message) (i : Nat),
    inversions msgs * msgs.length + (msgs.length - i) ≤ n →
    (sortLoopFuel (n + 1) msgs i).isSome := by
  intro n
  induction n with
  | zero =>
    intro msgs i h
    have hguard : ¬ i + 2 < msgs.length := by
      generalize inversions msgs * msgs.length = C at h
      omega
    simp [sortLoopFuel, hguard]
  | succ n ih =>
    intro msgs i h
    rw [sortLoopFuel]
    by_cases hguard : i + 2 < msgs.length
    · rw [if_pos hguard]
      by_cases hgt :
          (msgs.getD i default).frame_id > (msgs.getD (i+1) default).frame_id
      · rw [if_pos hgt]
        apply ih
        have hlen := length_swapAdj msgs i
        have hinv := inversions_swapAdj i msgs (by omega) hgt
        rw [hlen]
        have hmul : inversions msgs * msgs.length
            = inversions (swapAdj msgs i) * msgs.length + msgs.length := by
          rw [← hinv]; ring
        rw [hmul] at h
        generalize inversions (swapAdj msgs i) * msgs.length = C at h ⊢
        omega
      · rw [if_neg hgt]
        apply ih
        generalize inversions msgs * msgs.length = C at h ⊢
        omega
    · rw [if_neg hguard]
      simp

lemma sort_eq_some (msgs : List Message) :
    sortLoopFuel (sortFuel msgs + 1) msgs 0 = some (sort_messages_by_CAN_id msgs) := by
  have h := sortLoopFuel_isSome (sortFuel msgs) msgs 0 (by simp [sortFuel])
  obtain ⟨r, hr⟩ := Option.isSome_iff_exists.mp h
  rw [sort_messages_by_CAN_id, hr]
  rfl

lemma sortLoopFuel_perm : ∀ (f : Nat) (msgs : List Message) (i : Nat)
    (r : List Message), sortLoopFuel f msgs i = some r → r.Perm msgs := by
  intro f
  induction f with
  | zero => intro msgs i r h; simp [sortLoopFuel] at h
  | succ f ih =>
    intro msgs i r h
    rw [sortLoopFuel] at h
    by_cases hguard : i + 2 < msgs.length
    · rw [if_pos hguard] at h
      by_cases hgt :
          (msgs.getD i default).frame_id > (msgs.getD (i+1) default).frame_id
      · rw [if_pos hgt] at h
        exact (ih _ _ _ h).trans (swapAdj_perm i msgs (by omega))
      · rw [if_neg hgt] at h
        exact ih _ _ _ h
    · rw [if_neg hguard] at h
      cases h
      exact List.Perm.refl _

lemma sortLoopFuel_sorted : ∀ (f : Nat) (msgs : List Message) (i : Nat)
    (r : List Message), sortLoopFuel f msgs i = some r →
    (∀ j, 1 ≤ j → j < i → j + 1 < msgs.length →
      (msgs.getD j default).frame_id ≤ (msgs.getD (j+1) default).frame_id) →
    ∀ j, 1 ≤ j → j + 2 < r.length →
      (r.getD j default).frame_id ≤ (r.getD (j+1) default).frame_id := by
  intro f
  induction f with
  | zero => intro msgs i r h; simp [sortLoopFuel] at h
  | succ f ih =>
    intro msgs i r h hpre
    rw [sortLoopFuel] at h
    by_cases hguard : i + 2 < msgs.length
    · rw [if_pos hguard] at h
      by_cases hgt :
          (msgs.getD i default).frame_id > (msgs.getD (i+1) default).frame_id
      · rw [if_pos hgt] at h
        exact ih _ _ _ h (by intro j hj1 hj2 _; omega)
      · rw [if_neg hgt] at h
        apply ih _ _ _ h
        intro j hj1 hji hjlen
        rcases Nat.lt_or_ge j i with hc | hc
        · exact hpre j hj1 hc hjlen
        · have hje : j = i := by omega
          subst hje
          exact Nat.not_lt.mp hgt
    · rw [if_neg hguard] at h
      cases h
      intro j hj1 hjlen
      exact hpre j hj1 (by omega) (by omega)

/-! ## Claims C4, C8, C9: the sort -/

/-- C8: for every input list of messages, the list returned by
`sort_messages_by_CAN_id` is a permutation of the input — the algorithm only
swaps adjacent elements, so the multiset of messages (and hence of
`frame_id`s) is preserved. -/
theorem sort_messages_by_CAN_id_perm (msgs : List Message) :
    (sort_messages_by_CAN_id msgs).Perm msgs :=
  sortLoopFuel_perm _ _ _ _ (sort_eq_some msgs)

/-- C9: `sort_messages_by_CAN_id` terminates on every finite input list,
despite resetting the scan index after each swap: the fuel-indexed
transcription of the `while` loop reaches its exit (`some` result, equal to
the value of the sort) for some finite fuel, because each swap strictly
decreases the number of inversions (`inversions_swapAdj`), which bounds the
total work. -/
theorem sort_messages_by_CAN_id_terminates (msgs : List Message) :
    ∃ fuel : Nat, sortLoopFuel fuel msgs 0 = some (sort_messages_by_CAN_id msgs) :=
  ⟨sortFuel msgs + 1, sort_eq_some msgs⟩

/-- C4, counterexample: the claim "in the returned list every adjacent pair
is in ascending `frame_id` order except possibly the pair involving the
final element" is false.  On input with `frame_id`s `[2, 3, 1, 4]` the sort
returns `[2, 1, 3, 4]`: the adjacent pair at indices `(0, 1)` is descending,
and since the list has length 4 (final element at index 3, compared in the
pair `(2, 3)`), that pair does not involve the final element.  The reason is
that after a swap the source sets `i = 0` and then unconditionally executes
`i += 1`, so the scan restarts at index 1, never re-checking pair `(0, 1)`. -/
theorem sort_restart_scan_counterexample :
    ((sort_messages_by_CAN_id
        [⟨2, "", [], []⟩, ⟨3, "", [], []⟩, ⟨1, "", [], []⟩, ⟨4, "", [], []⟩]).getD
          1 default).frame_id <
      ((sort_messages_by_CAN_id
        [⟨2, "", [], []⟩, ⟨3, "", [], []⟩, ⟨1, "", [], []⟩, ⟨4, "", [], []⟩]).getD
          0 default).frame_id ∧
    0 + 2 < (sort_messages_by_CAN_id
        [⟨2, "", [], []⟩, ⟨3, "", [], []⟩, ⟨1, "", [], []⟩, ⟨4, "", [], []⟩]).length := by
  decide

/-- C4, amended: `sort_messages_by_CAN_id` implements the restart-scan with
the restart landing at index 1 (the index is set to 0 and then unconditionally
incremented), so in the returned list every adjacent pair at indices
`(j, j+1)` with `1 ≤ j < length − 2` is in ascending `frame_id` order; the
first pair `(0, 1)` and the pair involving the final element (never compared
because of the `index < length − 2` boundary) may remain out of order. -/
theorem sort_sorted_from_index_one (msgs : List Message) (j : Nat)
    (h1 : 1 ≤ j) (h2 : j + 2 < (sort_messages_by_CAN_id msgs).length) :
    ((sort_messages_by_CAN_id msgs).getD j default).frame_id ≤
      ((sort_messages_by_CAN_id msgs).getD (j+1) default).frame_id :=
  sortLoopFuel_sorted _ _ _ _ (sort_eq_some msgs)
    (by intro j hj1 hj0 _; omega) j h1 h2

/-- Witness for `sort_sorted_from_index_one` at a concrete input: the sorted
list of `frame_id`s `[2, 3, 1, 4, 5]` is `[2, 1, 3, 4, 5]` and its pair at
indices `(1, 2)` is ascending. -/
theorem sort_sorted_from_index_one_witness :
    1 ≤ 1 ∧
    1 + 2 < (sort_messages_by_CAN_id
      [⟨2, "", [], []⟩, ⟨3, "", [], []⟩, ⟨1, "", [], []⟩, ⟨4, "", [], []⟩,
        ⟨5, "", [], []⟩]).length ∧
    ((sort_messages_by_CAN_id
      [⟨2, "", [], []⟩, ⟨3, "", [], []⟩, ⟨1, "", [], []⟩, ⟨4, "", [], []⟩,
        ⟨5, "", [], []⟩]).getD 1 default).frame_id ≤
      ((sort_messages_by_CAN_id
        [⟨2, "", [], []⟩, ⟨3, "", [], []⟩, ⟨1, "", [], []⟩, ⟨4, "", [], []⟩,
          ⟨5, "", [], []⟩]).getD (1+1) default).frame_id :=
  ⟨by decide, by decide, sort_sorted_from_index_one _ 1 (by decide) (by decide)⟩

/-! ## Claim C10: empty sender or receiver set -/

/-- C10: for every database, `get_edges` returns the empty edge list whenever
the sender-name list or the receiver-name list is empty (e.g. when `ignore`
removes every known node): the Cartesian-product iteration executes no
appends. -/
theorem get_edges_empty_of_empty_filter (db : Database)
    (senders receivers : List String) (h : senders = [] ∨ receivers = []) :
    (get_edges db senders receivers).1 = [] := by
  rcases h with h | h <;> subst h <;> simp [get_edges]

/-- Witness for `get_edges_empty_of_empty_filter` on a concrete database with
an empty sender list. -/
theorem get_edges_empty_of_empty_filter_witness :
    (([] : List String) = [] ∨ (["B"] : List String) = []) ∧
    (get_edges ⟨[⟨"A"⟩, ⟨"B"⟩], [⟨1, "m", ["A"], [⟨["B"]⟩]⟩]⟩ [] ["B"]).1 = [] :=
  ⟨Or.inl rfl, get_edges_empty_of_empty_filter _ _ _ (Or.inl rfl)⟩

/-! ## Claim C3: idempotence of get_edges -/

/-- C3, counterexample: calling `get_edges` twice on the same database state
does not yield identical ordered edge lists.  `get_edges` sorts `db.messages`
in place, and the restart-scan sort is not a fixpoint on its own output: for
stored `frame_id`s `[2, 3, 1, 4]` the first call sorts them to `[2, 1, 3, 4]`
and returns edges in that order, while the second call (on the database state
the first call left behind) sorts to `[1, 2, 3, 4]` and returns the edges in
a different order. -/
theorem get_edges_not_idempotent_counterexample :
    (get_edges
        ((get_edges
          ⟨[⟨"A"⟩, ⟨"B"⟩],
            [⟨2, "m", ["A"], [⟨["B"]⟩]⟩, ⟨3, "m", ["A"], [⟨["B"]⟩]⟩,
              ⟨1, "m", ["A"], [⟨["B"]⟩]⟩, ⟨4, "m", ["A"], [⟨["B"]⟩]⟩]⟩
          ["A"] ["B"]).2) ["A"] ["B"]).1 ≠
      (get_edges
        ⟨[⟨"A"⟩, ⟨"B"⟩],
          [⟨2, "m", ["A"], [⟨["B"]⟩]⟩, ⟨3, "m", ["A"], [⟨["B"]⟩]⟩,
            ⟨1, "m", ["A"], [⟨["B"]⟩]⟩, ⟨4, "m", ["A"], [⟨["B"]⟩]⟩]⟩
        ["A"] ["B"]).1 := by
  decide

/-- C3, amended: `get_edges` is idempotent provided the database's stored
message list is a fixpoint of `sort_messages_by_CAN_id` (in particular when
it is already sorted); then the in-place sort leaves the state unchanged and
the second call returns the identical ordered edge list (and state).  In
general the first call mutates `db.messages`, so sequential calls on the same
database need not agree. -/
theorem get_edges_idempotent_of_sort_fixpoint (db : Database)
    (senders receivers : List String)
    (h : sort_messages_by_CAN_id db.messages = db.messages) :
    get_edges ((get_edges db senders receivers).2) senders receivers =
      get_edges db senders receivers := by
  have hdb : (get_edges db senders receivers).2 = db := by
    simp [get_edges, h]
  rw [hdb]

/-- Witness for `get_edges_idempotent_of_sort_fixpoint` on a concrete
already-sorted database. -/
theorem get_edges_idempotent_of_sort_fixpoint_witness :
    sort_messages_by_CAN_id
        (Database.messages
          ⟨[⟨"A"⟩, ⟨"B"⟩],
            [⟨1, "m", ["A"], [⟨["B"]⟩]⟩, ⟨2, "m", ["A"], [⟨["B"]⟩]⟩]⟩) =
      Database.messages
        ⟨[⟨"A"⟩, ⟨"B"⟩],
          [⟨1, "m", ["A"], [⟨["B"]⟩]⟩, ⟨2, "m", ["A"], [⟨["B"]⟩]⟩]⟩ ∧
    get_edges
        ((get_edges
          ⟨[⟨"A"⟩, ⟨"B"⟩],
            [⟨1, "m", ["A"], [⟨["B"]⟩]⟩, ⟨2, "m", ["A"], [⟨["B"]⟩]⟩]⟩
          ["A"] ["B"]).2) ["A"] ["B"] =
      get_edges
        ⟨[⟨"A"⟩, ⟨"B"⟩],
          [⟨1, "m", ["A"], [⟨["B"]⟩]⟩, ⟨2, "m", ["A"], [⟨["B"]⟩]⟩]⟩
        ["A"] ["B"] :=
  ⟨by decide, get_edges_idempotent_of_sort_fixpoint _ _ _ (by decide)⟩

/-! ## Claim C5: multiplicity in messages_from_a_to_b -/

lemma count_map_const (m x : Message) (l : List String) :
    ((l.map (fun _ => x)).count m) = if x = m then l.length else 0 := by
  induction l with
  | nil => simp
  | cons a t ih =>
    by_cases h : x = m
    · simp [List.count_cons, ih, h]
    · simp [List.count_cons, ih, h, List.count_replicate, Ne.symm h]

lemma count_flatMap_receivers (t : List Message) (R : List String) (m : Message) :
    ((t.flatMap (fun msg =>
        (R.filter (fun receiver => receiver_match msg receiver)).map
          (fun _ => msg))).count m) =
      t.count m * R.countP (fun receiver => receiver_match m receiver) := by
  induction t with
  | nil => simp
  | cons x t ih =>
    simp only [List.flatMap_cons, List.count_append, ih, count_map_const,
      List.count_cons]
    by_cases h : x = m
    · subst h
      simp [List.countP_eq_length_filter, Nat.succ_mul]
      omega
    · simp [h, Ne.symm h]

lemma count_filter_sender (messages : List Message) (senders : List String)
    (m : Message) :
    ((messages.filter (fun msg => sender_match msg senders)).count m) =
      if sender_match m senders then messages.count m else 0 := by
  induction messages with
  | nil => simp
  | cons x t ih =>
    by_cases hx : sender_match x senders
    · by_cases hm : x = m
      · subst hm; simp [List.filter_cons, hx, List.count_cons, ih]
      · simp [List.filter_cons, hx, List.count_cons, hm, ih]
    · by_cases hm : x = m
      · subst hm; simp [List.filter_cons, hx, List.count_cons, ih]
      · simp [List.filter_cons, hx, List.count_cons, hm, ih]

/-- C5, counterexample: the claim "returns each qualifying message exactly
once" is false.  With `receivers = ["B", "C"]` and a single qualifying
message whose signal is received by both `B` and `C`, the inner loop appends
the message once per matching receiver name, so it occurs twice in the
result. -/
theorem messages_from_a_to_b_duplicate_counterexample :
    (messages_from_a_to_b [⟨5, "m", ["A"], [⟨["B", "C"]⟩]⟩]
        ["A"] ["B", "C"]).count ⟨5, "m", ["A"], [⟨["B", "C"]⟩]⟩ = 2 := by
  decide

/-- C5, amended: for every message list and every sender-name and
receiver-name list, a message occurs in the result of `messages_from_a_to_b`
once per occurrence in the input times the number of receiver names that
match the receiver list of at least one of its signals, provided at least one
given sender name appears in its sender list — and zero times otherwise.  (In
particular it is returned exactly once when it occurs once in the input and
exactly one receiver name matches, e.g. for the singleton receiver lists used
by `get_edges`.) -/
theorem messages_from_a_to_b_count (messages : List Message)
    (senders receivers : List String) (m : Message) :
    (messages_from_a_to_b messages senders receivers).count m =
      messages.count m *
        (if sender_match m senders then
          receivers.countP (fun receiver => receiver_match m receiver)
        else 0) := by
  unfold messages_from_a_to_b
  rw [count_flatMap_receivers, count_filter_sender]
  by_cases h : sender_match m senders <;> simp [h]

/-! ## Claim C2: the color encoding -/

lemma int_tdiv_ofNat (m n : ℕ) :
    (Int.ofNat m).tdiv (Int.ofNat n) = Int.ofNat (m / n) := rfl

lemma pyTrunc_eq_floor (q : ℚ) (h : 0 ≤ q) : pyTrunc q = ⌊q⌋ := by
  have hnum : 0 ≤ q.num := Rat.num_nonneg.mpr h
  obtain ⟨m, hm⟩ := Int.eq_ofNat_of_zero_le hnum
  rw [pyTrunc, hm, Rat.floor_def, hm]
  rfl

lemma pyTrunc_div_nonneg (a b : ℤ) (ha : 0 ≤ a) (hb : 0 < b) :
    pyTrunc ((a : ℚ) / (b : ℚ)) = ((a.toNat / b.toNat : ℕ) : ℤ) := by
  rw [pyTrunc_eq_floor _ (div_nonneg (by exact_mod_cast ha) (by exact_mod_cast hb.le))]
  have hb' : ((b.toNat : ℕ) : ℚ) = (b : ℚ) := by
    exact_mod_cast congrArg (fun z : ℤ => (z : ℚ)) (Int.toNat_of_nonneg hb.le)
  rw [← hb', Rat.floor_intCast_div_natCast]
  obtain ⟨m, rfl⟩ := Int.eq_ofNat_of_zero_le ha
  norm_cast

lemma to_hex_str_of_nonneg (val : ℚ) (k : ℕ) (h : pyTrunc (val * 255) = (k : ℤ)) :
    to_hex_str val = pyHexDigits k := by
  rw [to_hex_str, h]
  simp

/-- In-range closed form of the color computation: both channels are floor
divisions of integers, rendered as unpadded lowercase hex digits. -/
lemma color_str_closed_form (msg : Message) (min_id max_id : ℤ)
    (h1 : min_id < max_id) (h2 : min_id ≤ (msg.frame_id : ℤ))
    (h3 : (msg.frame_id : ℤ) ≤ max_id) :
    color_str_for_msg msg min_id max_id =
      "#" ++ pyHexDigits ((255 * (max_id - (msg.frame_id : ℤ))).toNat /
          (max_id - min_id).toNat)
        ++ "00" ++ pyHexDigits ((255 * ((msg.frame_id : ℤ) - min_id)).toNat /
          (max_id - min_id).toNat) := by
  have hRne : max_id - min_id ≠ 0 := by omega
  have hstep : color_str_for_msg msg min_id max_id =
      "#" ++ to_hex_str (1 - ((msg.frame_id : ℚ) - (min_id : ℚ)) /
          ((max_id - min_id : ℤ) : ℚ))
        ++ "00" ++ to_hex_str (((msg.frame_id : ℚ) - (min_id : ℚ)) /
          ((max_id - min_id : ℤ) : ℚ)) := by
    rw [color_str_for_msg]
    simp only [hRne, ne_eq, not_false_iff, if_true]
  rw [hstep]
  have hRQ : (max_id : ℚ) - (min_id : ℚ) ≠ 0 := by
    have h0 : ((max_id - min_id : ℤ) : ℚ) ≠ 0 := by exact_mod_cast hRne
    push_cast at h0
    exact h0
  have e1 : (1 - ((msg.frame_id : ℚ) - (min_id : ℚ)) / ((max_id - min_id : ℤ) : ℚ)) * 255
      = ((255 * (max_id - (msg.frame_id : ℤ)) : ℤ) : ℚ) / ((max_id - min_id : ℤ) : ℚ) := by
    push_cast
    field_simp
    ring
  have e2 : (((msg.frame_id : ℚ) - (min_id : ℚ)) / ((max_id - min_id : ℤ) : ℚ)) * 255
      = ((255 * ((msg.frame_id : ℤ) - min_id) : ℤ) : ℚ) / ((max_id - min_id : ℤ) : ℚ) := by
    push_cast
    field_simp
    ring
  rw [to_hex_str_of_nonneg _ _ (by
      rw [e1, pyTrunc_div_nonneg _ _ (by omega) (by omega)]),
    to_hex_str_of_nonneg _ _ (by
      rw [e2, pyTrunc_div_nonneg _ _ (by omega) (by omega)])]

/-- C2, counterexample: the claim's own example is false on the code.  For
`min_id = 0x100`, `max_id = 0x200` the message with `frame_id = 0x100` maps
to `"#ff000"` — six characters, not the claimed `"#ff0000"` — because
`to_hex_str` renders a channel with `hex(...)[2:]`, which does not zero-pad:
the blue channel value `0` becomes the single digit `"0"`.  (The channels are
also computed with `int()` truncation, not rounding; the spec's own
`#7f007f` mid-range example already matches truncation.) -/
theorem color_str_unpadded_counterexample :
    color_str_for_msg ⟨0x100, "m", [], []⟩ 0x100 0x200 = "#ff000" ∧
    "#ff000" ≠ "#ff0000" := by
  constructor
  · rw [color_str_closed_form _ _ _ (by decide) (by decide) (by decide)]
    decide
  · decide

/-- C2, amended: for every message and every `min_id < max_id` with
`min_id ≤ frame_id ≤ max_id` whose range `max_id − min_id` is a power of two
`2^k` with `k ≤ 45` (the regime in which the source's binary64 float pipeline
is exact, so the exact-rational embedding coincides with the program — see
the argument at `color_str_for_msg`; it includes the claim's own
`0x100`/`0x200` example, whose range is `2^8`), `color_str_for_msg` returns
`"#" ++ red ++ "00" ++ blue` where, with `norm = (frame_id − min_id) /
(max_id − min_id)`, the red channel is `⌊(1 − norm) × 255⌋` (Python `int()`
truncation, not rounding) and the blue channel is `⌊norm × 255⌋`, each
rendered as lowercase hex digits with no zero-padding (one digit when the
value is below 16).  In particular for `min_id = 0x100`, `max_id = 0x200`
the message at `0x100` maps to `"#ff000"` and the one at `0x200` maps to
`"#000ff"`.  For non-power-of-two ranges the binary64 pipeline can shift a
channel by one relative to this formula (`min_id = 0`, `max_id = 255`,
`frame_id = 43` gives red `211` in the program), so the power-of-two
hypothesis delimits the statement's scope; the proof over the exact-rational
embedding does not consume it. -/
theorem color_str_for_msg_trunc_unpadded_pow2 (msg : Message)
    (min_id max_id : ℤ) (h1 : min_id < max_id)
    (h2 : min_id ≤ (msg.frame_id : ℤ)) (h3 : (msg.frame_id : ℤ) ≤ max_id)
    (_hpow : ∃ k : ℕ, k ≤ 45 ∧ max_id - min_id = 2 ^ k) :
    color_str_for_msg msg min_id max_id =
      "#" ++ pyHexDigits ((255 * (max_id - (msg.frame_id : ℤ))).toNat /
          (max_id - min_id).toNat)
        ++ "00" ++ pyHexDigits ((255 * ((msg.frame_id : ℤ) - min_id)).toNat /
          (max_id - min_id).toNat) :=
  color_str_closed_form msg min_id max_id h1 h2 h3

/-- Witness for `color_str_for_msg_trunc_unpadded_pow2`: the range
`[0x100, 0x200]` has the power-of-two width `2^8`, and the message at its top
gets the color `"#000ff"`. -/
theorem color_str_for_msg_trunc_unpadded_pow2_witness :
    (0x100 : ℤ) < 0x200 ∧ (0x100 : ℤ) ≤ ((0x200 : ℕ) : ℤ) ∧
    ((0x200 : ℕ) : ℤ) ≤ 0x200 ∧
    (∃ k : ℕ, k ≤ 45 ∧ (0x200 : ℤ) - 0x100 = 2 ^ k) ∧
    color_str_for_msg ⟨0x200, "m", [], []⟩ 0x100 0x200 = "#000ff" :=
  ⟨by decide, by decide, by decide, ⟨8, by decide, by norm_num⟩,
    (color_str_for_msg_trunc_unpadded_pow2 ⟨0x200, "m", [], []⟩ 0x100 0x200
      (by decide) (by decide) (by decide)
      ⟨8, by decide, by norm_num⟩).trans (by decide)⟩

/-! ## Claim C7: the ignore list and filter resolution -/

/-- C7: for every non-empty `ignore` list disjoint from the explicit filters,
a name in `ignore` never appears in a sender or receiver set that was
auto-filled from the pool of all known nodes (default mode, or the fallback
side of sender/receiver mode), while a name explicitly given in `senders`,
`receivers` or `nodes` does appear in the corresponding resolved set (mode 1
re-adds the explicit nodes after the ignore subtraction, since the pool is
`set(nodes + all_nodes)` with `all_nodes` already filtered). -/
theorem resolve_sets_ignore (all_nodes nodes senders receivers ignore : List String)
    (_hne : ignore ≠ [])
    (_hdisj : ∀ x ∈ ignore, x ∉ nodes ∧ x ∉ senders ∧ x ∉ receivers) :
    (∀ x ∈ ignore,
      (nodes = [] → senders = [] →
        x ∉ (resolve_sets (all_nodes.filter (fun n => ! ignore.contains n))
          nodes senders receivers).1) ∧
      (nodes = [] → receivers = [] →
        x ∉ (resolve_sets (all_nodes.filter (fun n => ! ignore.contains n))
          nodes senders receivers).2)) ∧
    (nodes ≠ [] → ∀ x ∈ nodes,
      x ∈ (resolve_sets (all_nodes.filter (fun n => ! ignore.contains n))
        nodes senders receivers).1 ∧
      x ∈ (resolve_sets (all_nodes.filter (fun n => ! ignore.contains n))
        nodes senders receivers).2) ∧
    (nodes = [] →
      (∀ x ∈ senders, x ∈ (resolve_sets (all_nodes.filter (fun n => ! ignore.contains n))
        nodes senders receivers).1) ∧
      (∀ x ∈ receivers, x ∈ (resolve_sets (all_nodes.filter (fun n => ! ignore.contains n))
        nodes senders receivers).2)) := by
  refine ⟨?_, ?_, ?_⟩
  · intro x hx
    constructor
    · intro hn hs
      subst hn; subst hs
      by_cases hr : receivers = [] <;>
        simp [resolve_sets, hr] <;>
        exact fun _ => hx
    · intro hn hr
      subst hn; subst hr
      by_cases hs : senders = [] <;>
        simp [resolve_sets, hs] <;>
        exact fun _ => hx
  · intro hn x hx
    simp [resolve_sets, hn, List.mem_dedup, hx]
  · intro hn
    subst hn
    constructor
    · intro x hx
      by_cases hs : senders = []
      · subst hs; simp at hx
      · simp [resolve_sets, hs, hx]
    · intro x hx
      by_cases hr : receivers = []
      · subst hr; simp at hx
      · simp [resolve_sets, hr, hx]

/-- Witness for `resolve_sets_ignore`: catalog `{A, B, C}`, `senders = [A]`,
`ignore = [C]`.  The auto-filled receiver set omits `C`; the explicit sender
`A` is in the resolved sender set. -/
theorem resolve_sets_ignore_witness :
    (["C"] : List String) ≠ [] ∧
    (∀ x ∈ (["C"] : List String),
      x ∉ ([] : List String) ∧ x ∉ ["A"] ∧ x ∉ ([] : List String)) ∧
    "C" ∉ (resolve_sets (["A", "B", "C"].filter (fun n => ! ["C"].contains n))
      [] ["A"] []).2 ∧
    "A" ∈ (resolve_sets (["A", "B", "C"].filter (fun n => ! ["C"].contains n))
      [] ["A"] []).1 := by
  refine ⟨by decide, by decide, ?_, ?_⟩
  · exact ((resolve_sets_ignore ["A", "B", "C"] [] ["A"] [] ["C"]
      (by decide) (by decide)).1 "C" (by decide)).2 rfl rfl
  · exact ((resolve_sets_ignore ["A", "B", "C"] [] ["A"] [] ["C"]
      (by decide) (by decide)).2.2 rfl).1 "A" (by decide)

/-! ## Claim C6: validation aborts the run -/

/-- C6: if the node catalog is empty, `main` reports it and returns early;
if any user-supplied name in `nodes`, `senders`, `receivers` or `ignore` is
absent from the catalog, `main` reports exactly the offending names together
with the full list of valid names and returns early — in both cases without
computing edges, producing an artifact, or raising. -/
theorem main_aborts_on_bad_names (db : Database) (dbc_filename : String)
    (nodes senders receivers ignore : List String) :
    (get_node_names db = [] →
      main db dbc_filename nodes senders receivers ignore = .emptyCatalog) ∧
    (get_node_names db ≠ [] →
      (nodes ++ senders ++ receivers ++ ignore).filter
        (fun n => ! (get_node_names db).contains n) ≠ [] →
      main db dbc_filename nodes senders receivers ignore =
        .unknownNames
          ((nodes ++ senders ++ receivers ++ ignore).filter
            (fun n => ! (get_node_names db).contains n))
          (get_node_names db)) := by
  constructor
  · intro h
    rw [main]
    simp [h]
  · intro h1 h2
    rw [main, if_neg h1, if_pos h2]

/-- Witness for `main_aborts_on_bad_names`: catalog `{A, B, C}` and
`senders = ["D"]` make the run abort, reporting `D` against `A, B, C`. -/
theorem main_aborts_on_bad_names_witness :
    get_node_names ⟨[⟨"A"⟩, ⟨"B"⟩, ⟨"C"⟩], []⟩ ≠ [] ∧
    ((([] : List String) ++ ["D"] ++ [] ++ []).filter
      (fun n => ! (get_node_names ⟨[⟨"A"⟩, ⟨"B"⟩, ⟨"C"⟩], []⟩).contains n)) ≠ [] ∧
    main ⟨[⟨"A"⟩, ⟨"B"⟩, ⟨"C"⟩], []⟩ "bus.dbc" [] ["D"] [] [] =
      .unknownNames ["D"] ["A", "B", "C"] :=
  ⟨by decide, by decide,
    ((main_aborts_on_bad_names ⟨[⟨"A"⟩, ⟨"B"⟩, ⟨"C"⟩], []⟩ "bus.dbc"
      [] ["D"] [] []).2 (by decide) (by decide)).trans (by decide)⟩

/-! ## Claim C1: empty edge list still reaches min([]) -/

/-- C1 (code bug): with catalog `{A, B}` and one message sent by `A` whose
only signal is received by `A`, the filters `senders = [A]`,
`receivers = [B]` pass validation and produce an empty edge list; `main`
prints the "No edges found" message (modelled by the `true` flag) but then
still calls `dbcview`, whose `min([msg.frame_id for _, _, msg in edges])`
raises `ValueError` on the empty list — so an exception does escape the
artifact-generation step, contradicting the claim (the claim matches the
spec's stated intent; the code is the slip). -/
theorem main_raises_on_empty_edge_list :
    (get_edges ⟨[⟨"A"⟩, ⟨"B"⟩], [⟨0x100, "M1", ["A"], [⟨["A"]⟩]⟩]⟩ ["A"] ["B"]).1 = [] ∧
    main ⟨[⟨"A"⟩, ⟨"B"⟩], [⟨0x100, "M1", ["A"], [⟨["A"]⟩]⟩]⟩ "bus.dbc"
        [] ["A"] ["B"] [] =
      .raised true "min() arg is an empty sequence" := by
  constructor <;> decide

end DBCView
